import Mathlib

/-!
Verification of the vertex-merge and mesh-assembly pipeline of
`mesh_sphere_packing/tetmesh.py`.

The Python code is shallowly embedded: `float64` coordinates become exact
rationals, numpy arrays become lists, in-place mutation of triangle index
arrays becomes explicit construction of the updated arrays, and Python
dictionary lookups that may raise `KeyError` become `Option`-valued
functions (`none` models the raised exception).
-/

namespace MeshSpherePacking

/-- Three-dimensional point with exact rational coordinates (embedding of a
float64 3-vector). -/
abbrev Vec3 := ℚ × ℚ × ℚ

/-- Triangle connectivity: three vertex indices. -/
abbrev Tri := Nat × Nat × Nat

/-- Zero vector, used as the out-of-range default for list indexing. -/
def z3 : Vec3 := (0, 0, 0)

/-- Modelled from the spec: the module-level tolerance `TOL` is imported from
the package init file `mesh_sphere_packing/__init__.py`, which is not part of
the sources here; the spec states the tolerance default is of 1e-10 scale. -/
def TOL : ℚ := 1 / 10 ^ 10

/-- Default absolute tolerance of `numpy.isclose`. -/
def np_atol : ℚ := 1 / 10 ^ 8

/-- Default relative tolerance of `numpy.isclose`. -/
def np_rtol : ℚ := 1 / 10 ^ 5

/-- `numpy.isclose(a, b)` with default tolerances: `|a - b| <= atol + rtol*|b|`. -/
def np_isclose (a b : ℚ) : Bool := decide (|a - b| ≤ np_atol + np_rtol * |b|)

/-- Squared Euclidean distance; `dist p q <= r` iff `sqDist p q <= r^2` for `0 <= r`. -/
def sqDist (p q : Vec3) : ℚ :=
  (p.1 - q.1) ^ 2 + (p.2.1 - q.2.1) ^ 2 + (p.2.2 - q.2.2) ^ 2

/-- Originating sphere of a sphere piece: id and center `x`. -/
structure Sphere where
  id : Int
  x : Vec3
deriving DecidableEq

/-- A clipped fragment of a sphere surface triangulation. -/
structure SpherePiece where
  points : List Vec3
  tris : List Tri
  sphere : Sphere
  is_hole : Bool
deriving DecidableEq

/-- A planar boundary patch (the `boundaryPLC` objects of the source). -/
structure BoundaryPLC where
  points : List Vec3
  tris : List Tri
deriving DecidableEq

/-- The axis-aligned periodic domain with edge lengths `L`. -/
structure Domain where
  L : Vec3
deriving DecidableEq

/-- Add a constant offset to all three indices of a triangle
(`tris += vcount` in the source). -/
def offsetTri (n : Nat) (t : Tri) : Tri := (t.1 + n, t.2.1 + n, t.2.2 + n)

/-- Concatenation of all sphere-piece point arrays (`piece_points` after
`np.vstack`). -/
def piecePointsOf (pieces : List SpherePiece) : List Vec3 :=
  (pieces.map SpherePiece.points).flatten

/-- The in-place offsets `tris += vcount` applied to each sphere piece in
order, with `vcount` the running point count. -/
def offsetPieceTris : Nat → List SpherePiece → List (List Tri)
  | _, [] => []
  | vcount, p :: ps => p.tris.map (offsetTri vcount) :: offsetPieceTris (vcount + p.points.length) ps

/-- Membership test of a point in the boundary-adjacent subset: the
disjunction `on_x_lower | on_y_lower | on_z_lower | on_x_upper | on_y_upper |
on_z_upper` of the source, each computed with `np.isclose`. -/
def onBoundary (d : Domain) (p : Vec3) : Bool :=
  np_isclose p.1 0 || np_isclose p.2.1 0 || np_isclose p.2.2 0 ||
  np_isclose p.1 d.L.1 || np_isclose p.2.1 d.L.2.1 || np_isclose p.2.2 d.L.2.2

/-- `bpp_idx = np.where(on_x_lower | ...)[0]`: indices of the sphere-piece
points lying close to one of the six boundary planes, in increasing order. -/
def bppIdx (d : Domain) (pp : List Vec3) : List Nat :=
  (List.range pp.length).filter (fun i => onBoundary d (pp.getD i z3))

/-- The in-place offsets `b.tris += vcount` applied to each boundary patch in
order, with `vcount` starting from `len(bpp_idx)`. -/
def offsetBoundaryTris : Nat → List BoundaryPLC → List (List Tri)
  | _, [] => []
  | vcount, b :: bs => b.tris.map (offsetTri vcount) :: offsetBoundaryTris (vcount + b.points.length) bs

/-- `boundary_points = np.vstack([piece_points[bpp_idx]] + boundary_points)`:
the boundary-adjacent sphere-piece points followed by every patch's points. -/
def bpArray (d : Domain) (pieces : List SpherePiece) (bounds : List BoundaryPLC) : List Vec3 :=
  (bppIdx d (piecePointsOf pieces)).map (fun i => (piecePointsOf pieces).getD i z3) ++
    (bounds.map BoundaryPLC.points).flatten

/-- `sorted(tree.query_pairs(TOL), key=lambda x: x[0])`: all index pairs
`(i, j)` with `i < j` and distance at most `TOL`, listed in lexicographic
order (in particular sorted by the smaller index, as in the source). -/
def proximityPairs (bp : List Vec3) : List (Nat × Nat) :=
  (List.range bp.length).flatMap (fun i =>
    ((List.range bp.length).filter
      (fun j => decide (i < j) && decide (sqDist (bp.getD i z3) (bp.getD j z3) ≤ TOL ^ 2))).map
      (fun j => (i, j)))

/-- One step of the duplicate-collection loop
`for k, v in _dup: if not v in dup: dup[v] = k`. -/
def dupIns (d : List (Nat × Nat)) (kv : Nat × Nat) : List (Nat × Nat) :=
  if (d.lookup kv.2).isSome then d else d ++ [(kv.2, kv.1)]

/-- The dictionary `dup`, mapping each removed (higher) index to the first
lower index paired with it. -/
def dupMap (bp : List Vec3) : List (Nat × Nat) := (proximityPairs bp).foldl dupIns []

/-- `np.where(mask)[0]` after `mask[list(dup.keys())] = False`: the kept
positions of the pre-compaction boundary-point array, in increasing order. -/
def keptIdx (bp : List Vec3) : List Nat :=
  (List.range bp.length).filter (fun v => ((dupMap bp).lookup v).isNone)

/-- `boundary_points = boundary_points[mask]`: the compacted array. -/
def compacted (bp : List Vec3) : List Vec3 := (keptIdx bp).map (fun v => bp.getD v z3)

/-- Position of a value in a list of indices (used to express
`reindex = {old: new for new, old in enumerate(np.where(mask)[0])}`). -/
def rankOf : List Nat → Nat → Option Nat
  | [], _ => none
  | w :: ws, v => if w = v then some 0 else (rankOf ws v).map (· + 1)

/-- The dictionary `reindex` before the update: kept position to compacted
position. -/
def reindex0 (bp : List Vec3) (v : Nat) : Option Nat := rankOf (keptIdx bp) v

/-- Construction of `{k: reindex[v] for k, v in dup.items()}`; `none` models
the `KeyError` raised when a value `v` of `dup` was itself removed. -/
def reindexUpdAux (f : Nat → Option Nat) : List (Nat × Nat) → Option (List (Nat × Nat))
  | [] => some []
  | kv :: rest =>
    match f kv.2 with
    | none => none
    | some n => (reindexUpdAux f rest).map (fun l => (kv.1, n) :: l)

/-- The entries added to `reindex` by `reindex.update(...)`. -/
def reindexUpd (bp : List Vec3) : Option (List (Nat × Nat)) :=
  reindexUpdAux (reindex0 bp) (dupMap bp)

/-- Lookup in the updated `reindex` dictionary. -/
def reindexFun (bp : List Vec3) (upd : List (Nat × Nat)) (v : Nat) : Option Nat :=
  match reindex0 bp v with
  | some n => some n
  | none => upd.lookup v

/-- Lookup in the dictionary `remap`: positions below `len(bpp_idx)` map to
their parent position in `piece_points`; later compacted positions map past
the end of `piece_points`. `none` models `KeyError`. -/
def remapFun (bidx : List Nat) (ppLen compLen : Nat) (v : Nat) : Option Nat :=
  if v < bidx.length then bidx.get? v
  else if v < compLen then some (v - bidx.length + ppLen)
  else none

/-- The composite lookup `remap[reindex[v]]` applied to one vertex index. -/
def lookupGlobal (d : Domain) (pieces : List SpherePiece) (bp : List Vec3)
    (upd : List (Nat × Nat)) (v : Nat) : Option Nat :=
  (reindexFun bp upd v).bind
    (remapFun (bppIdx d (piecePointsOf pieces)) (piecePointsOf pieces).length
      (compacted bp).length)

/-- Remap the three indices of one triangle; any failed lookup aborts. -/
def mapTri (f : Nat → Option Nat) (t : Tri) : Option Tri :=
  match f t.1, f t.2.1, f t.2.2 with
  | some a, some b, some c => some (a, b, c)
  | _, _, _ => none

/-- Remap a triangle list; any failed lookup aborts. -/
def mapTris (f : Nat → Option Nat) : List Tri → Option (List Tri)
  | [] => some []
  | t :: ts =>
    match mapTri f t with
    | none => none
    | some t2 => (mapTris f ts).map (fun l => t2 :: l)

/-- Remap every boundary patch's triangle list. -/
def mapTrisLists (f : Nat → Option Nat) : List (List Tri) → Option (List (List Tri))
  | [] => some []
  | ts :: rest =>
    match mapTris f ts with
    | none => none
    | some ts2 => (mapTrisLists f rest).map (fun l => ts2 :: l)

/-- Result of the vertex merge: the global point array, the offset
sphere-piece triangle arrays, and the rewritten boundary triangle arrays. -/
structure MergeResult where
  globalPoints : List Vec3
  pieceTris : List (List Tri)
  boundaryTris : List (List Tri)
deriving DecidableEq

/-- Embedding of `build_point_list`.  Returns `none` when the Python code
would raise (a `KeyError` in the `reindex` update or in the triangle
rewriting). -/
def build_point_list (d : Domain) (pieces : List SpherePiece) (bounds : List BoundaryPLC) :
    Option MergeResult :=
  match reindexUpd (bpArray d pieces bounds) with
  | none => none
  | some upd =>
    match mapTrisLists (lookupGlobal d pieces (bpArray d pieces bounds) upd)
        (offsetBoundaryTris (bppIdx d (piecePointsOf pieces)).length bounds) with
    | none => none
    | some nb =>
      some ⟨piecePointsOf pieces ++
              (compacted (bpArray d pieces bounds)).drop (bppIdx d (piecePointsOf pieces)).length,
            offsetPieceTris 0 pieces, nb⟩

/-- Validity of a triangle's three indices with respect to a point count. -/
abbrev triBound (t : Tri) (n : Nat) : Prop := t.1 < n ∧ t.2.1 < n ∧ t.2.2 < n

/-! ### Boundary replication (`duplicate_lower_boundaries`) -/

/-- Componentwise vector addition (`ub.points += translate`). -/
def addVec (p q : Vec3) : Vec3 := (p.1 + q.1, p.2.1 + q.2.1, p.2.2 + q.2.2)

/-- `translate = np.array([[domain.L[j] if j==i else 0. for j in range(3)]])`. -/
def axisTranslate (d : Domain) (i : Nat) : Vec3 :=
  (if 0 = i then d.L.1 else 0, if 1 = i then d.L.2.1 else 0, if 2 = i then d.L.2.2 else 0)

/-- Embedding of `duplicate_lower_boundaries`: deep-copy the lower patches,
translate copy `i` by `L[i]` along axis `i`, and return lowers then uppers. -/
def duplicate_lower_boundaries (d : Domain) (lower : List BoundaryPLC) : List BoundaryPLC :=
  let upper := lower.enum.map (fun e =>
    { points := e.2.points.map (fun p => addVec p (axisTranslate d e.1)), tris := e.2.tris })
  lower ++ upper

/-! ### Zero snapping in `build_tetmesh` -/

/-- Per-point action of the zero-snapping loop: each coordinate close to 0
(by `np.isclose`) is replaced by exactly 0. -/
def snapPoint (p : Vec3) : Vec3 :=
  (if np_isclose p.1 0 then 0 else p.1,
   if np_isclose p.2.1 0 then 0 else p.2.1,
   if np_isclose p.2.2 0 then 0 else p.2.2)

/-- Embedding of the loop
`for i in range(3): points[(np.isclose(points[:,i], 0.), i)] = 0.`. -/
def snapZero (pts : List Vec3) : List Vec3 := pts.map snapPoint

/-! ### Facet and hole assembly -/

/-- Embedding of `build_facet_list`.  The source indexes `all_facets[0]` to
`all_facets[5]`, so fewer than six boundary patches raise `IndexError`,
modelled by `none`. -/
def build_facet_list (pieces : List SpherePiece) (bounds : List BoundaryPLC) :
    Option (List Tri × List Int) :=
  match bounds with
  | b0 :: b1 :: b2 :: b3 :: b4 :: b5 :: _ =>
    some ((bounds.map BoundaryPLC.tris).flatten ++ (pieces.map SpherePiece.tris).flatten,
      List.replicate b0.tris.length (1 : Int) ++ List.replicate b1.tris.length 3 ++
      List.replicate b2.tris.length 5 ++ List.replicate b3.tris.length 2 ++
      List.replicate b4.tris.length 4 ++ List.replicate b5.tris.length 6 ++
      (pieces.map (fun p => List.replicate p.tris.length (p.sphere.id + 7))).flatten)
  | _ => none

/-- Embedding of `build_hole_list`: the comprehension
`[p.sphere.x for p in sphere_pieces if p.is_hole]`, returned as is when
non-empty and as the empty `(0,3)` array otherwise. -/
def build_hole_list (pieces : List SpherePiece) : List Vec3 :=
  let all_holes := pieces.foldr (fun p acc => if p.is_hole then p.sphere.x :: acc else acc) []
  if all_holes.length ≠ 0 then all_holes else []

/-! ### Gmsh writer (`write_msh`) -/

/-- One line of the `.msh` output.  Literal text lines are `raw`; a node line
carries the 1-based id and the three coordinates (the source renders them
with the `%+1.15e` format); an element line carries the tokens
`elm-number elm-type number-of-tags tag1 tag2 node1 node2 node3` of the
Gmsh 2.2 format referenced by the source docstring. -/
inductive MshLine where
  | raw (s : String)
  | node (id : Nat) (x y z : ℚ)
  | elem (id etype ntags : Nat) (tag1 tag2 : Int) (n1 n2 n3 : Nat)
deriving DecidableEq

/-- The mesh data consumed by the serializers. -/
structure TetMesh where
  points : List Vec3
  faces : List Tri
  face_markers : List Int
  elements : List (Nat × Nat × Nat × Nat)
deriving DecidableEq

/-- Embedding of `write_msh` as the list of lines written to the file. -/
def write_msh (mesh : TetMesh) : List MshLine :=
  let faces1 := mesh.faces.map (offsetTri 1)
  [.raw ("$MeshFormat"), .raw ("2.2 0 8"), .raw ("$EndMeshFormat"), .raw ("$Nodes"),
    .raw (toString mesh.points.length)] ++
  mesh.points.enum.map (fun e => .node (e.1 + 1) e.2.1 e.2.2.1 e.2.2.2) ++
  [.raw ("$EndNodes"), .raw ("$Elements"), .raw (toString mesh.faces.length)] ++
  (faces1.zip mesh.face_markers).enum.map (fun e =>
    .elem (e.1 + 1) 2 2 (if 0 < e.2.2 then e.2.2 else -1) 0 e.2.1.1 e.2.1.2.1 e.2.1.2.2) ++
  [.raw ("$EndElements")]

/-- Observation: the id and coordinates of a node line. -/
def mshNodeOf : MshLine → Option (Nat × ℚ × ℚ × ℚ)
  | .node i x y z => some (i, x, y, z)
  | _ => none

/-- The tokens of one `$Elements` line, in file order. -/
structure ElemLine where
  id : Nat
  etype : Nat
  ntags : Nat
  tag1 : Int
  tag2 : Int
  n1 : Nat
  n2 : Nat
  n3 : Nat
deriving DecidableEq

/-- Observation: the tokens of an element line. -/
def mshElemOf : MshLine → Option ElemLine
  | .elem i t nt t1 t2 a b c => some ⟨i, t, nt, t1, t2, a, b, c⟩
  | _ => none

/-! ### TetGen log statistics extraction (`extract_stats`) -/

/-- A line of the captured TetGen log, as a character list. -/
abbrev LogLine := List Char

/-- The marker text searched for by `extract_stats`. -/
def statToken : LogLine := ("Statistics:").data

/-- The space character, used to model `str.split()`. -/
def spaceChar : Char := Char.ofNat 32

/-- Whether the first list starts the second one. -/
def leadsWith : List Char → List Char → Bool
  | [], _ => true
  | _ :: _, [] => false
  | a :: as, b :: bs => a == b && leadsWith as bs

/-- Whether `needle` occurs inside `haystack` (Python `needle in line`). -/
def containsSeq (haystack needle : List Char) : Bool :=
  match haystack with
  | [] => needle.isEmpty
  | _ :: rest => leadsWith needle haystack || containsSeq rest needle

/-- Helper of `splitWs`: accumulate the current token (reversed). -/
def splitWsAux : List Char → List Char → List (List Char)
  | [], cur => if cur = [] then [] else [cur.reverse]
  | c :: rest, cur =>
    if c = spaceChar then
      if cur = [] then splitWsAux rest [] else cur.reverse :: splitWsAux rest []
    else splitWsAux rest (c :: cur)

/-- Model of Python `str.split()`: split into whitespace-separated tokens. -/
def splitWs (cs : List Char) : List (List Char) := splitWsAux cs []

/-- Parse a run of decimal digits (helper of `parseIntTok`). -/
def parseNatAux : List Char → Nat → Option Nat
  | [], acc => some acc
  | c :: rest, acc =>
    if 48 ≤ c.toNat ∧ c.toNat ≤ 57 then parseNatAux rest (acc * 10 + (c.toNat - 48))
    else none

/-- Model of Python `int(token)` on an optionally negated decimal token;
`none` models the `ValueError`. -/
def parseIntTok (cs : List Char) : Option Int :=
  match cs with
  | [] => none
  | c :: rest =>
    if c = Char.ofNat 45 then
      if rest = [] then none else (parseNatAux rest 0).map (fun n => -(n : Int))
    else (parseNatAux cs 0).map (fun n => (n : Int))

/-- Model of `int(sl.split()[-1])`; `none` models the `IndexError` on an
empty token list or a `ValueError` on a non-numeric token. -/
def lastTokenInt (cs : LogLine) : Option Int :=
  match (splitWs cs).getLast? with
  | none => none
  | some tok => parseIntTok tok

/-- `f.readline()` at a given line position: past the end of the file it
returns the empty string, indefinitely. -/
def readlineAt (log : List LogLine) (pos : Nat) : LogLine := log.getD pos []

/-- Outcome of the statistics parse once the marker line was found: the four
counts, or `err` modelling a raised exception. -/
inductive StatsOutcome where
  | ok (npoints ntets nfaces nedges : Int)
  | err
deriving DecidableEq

/-- The body executed once a line containing the marker is found: read the
next 11 lines and parse the last whitespace-separated token of lines 8-11. -/
def extract_stats_parse (log : List LogLine) (pos : Nat) : StatsOutcome :=
  let stats := (List.range 11).map (fun i => readlineAt log (pos + 1 + i))
  match lastTokenInt (stats.getD 7 []), lastTokenInt (stats.getD 8 []),
      lastTokenInt (stats.getD 9 []), lastTokenInt (stats.getD 10 []) with
  | some a, some b, some c, some d => .ok a b c d
  | _, _, _, _ => .err

/-- Fuel-indexed embedding of the `while True` loop of `extract_stats`:
`none` means the loop is still running when the fuel runs out, so if the
result is `none` for every fuel value the loop never terminates. -/
def extract_stats_loop (log : List LogLine) : Nat → Nat → Option StatsOutcome
  | 0, _ => none
  | fuel + 1, pos =>
    if containsSeq (readlineAt log pos) statToken then some (extract_stats_parse log pos)
    else extract_stats_loop log fuel (pos + 1)

/-! ### Multiflow writer: cell-face connectivity -/

/-- `cell_faces[key].append(v)` on a `defaultdict(list)`, keeping insertion
order of keys. -/
def dictAppend (m : List (Int × List Nat)) (key : Int) (v : Nat) : List (Int × List Nat) :=
  if (m.lookup key).isSome then
    m.map (fun kv => if kv.1 = key then (kv.1, kv.2 ++ [v]) else kv)
  else m ++ [(key, [v])]

/-- The loop `for idx, adj in enumerate(adjacent_elements): ...` of
`write_multiflow` building the cell-to-face dictionary. -/
def cellFacesDict (adj : List (Int × Int)) : List (Int × List Nat) :=
  adj.enum.foldl (fun m e => dictAppend (dictAppend m e.2.1 e.1) e.2.2 e.1) []

/-- `dict.pop(key)` discarding the value: `none` models the `KeyError`
raised when the key is absent. -/
def dictPop (m : List (Int × List Nat)) (key : Int) : Option (List (Int × List Nat)) :=
  if (m.lookup key).isSome then some (m.filter (fun kv => kv.1 != key)) else none

/-- The cell-face assembly step of `write_multiflow`: build the dictionary
from the per-face adjacent-element pairs, then `cell_faces.pop(-1)`. -/
def multiflow_cell_faces (adj : List (Int × Int)) : Option (List (Int × List Nat)) :=
  dictPop (cellFacesDict adj) (-1)

/-! ## General lemmas -/

/-- `np.isclose(a, 0.)` degenerates to an absolute comparison against `atol`. -/
theorem np_isclose_zero (a : ℚ) : np_isclose a 0 = true ↔ |a| ≤ np_atol := by
  simp [np_isclose]

/-- The package tolerance is finer than the `np.isclose` absolute tolerance. -/
theorem TOL_le_np_atol : TOL ≤ np_atol := by norm_num [TOL, np_atol]

/-! ## C4: zero snapping -/

/-- C4 (amended): after the merge step of `build_tetmesh`, a coordinate is
snapped to exactly 0 precisely when its absolute value is at most the
`np.isclose` absolute tolerance 1e-8; coordinates farther from 0 than 1e-8
are unaltered; in particular every coordinate within `TOL` of 0 becomes
exactly 0. -/
theorem snapZero_spec (pts : List Vec3) (k : Nat) :
    (snapZero pts).length = pts.length ∧
    (|(pts.getD k z3).1| ≤ np_atol → ((snapZero pts).getD k z3).1 = 0) ∧
    (np_atol < |(pts.getD k z3).1| → ((snapZero pts).getD k z3).1 = (pts.getD k z3).1) ∧
    (|(pts.getD k z3).1| ≤ TOL → ((snapZero pts).getD k z3).1 = 0) ∧
    (|(pts.getD k z3).2.1| ≤ np_atol → ((snapZero pts).getD k z3).2.1 = 0) ∧
    (np_atol < |(pts.getD k z3).2.1| → ((snapZero pts).getD k z3).2.1 = (pts.getD k z3).2.1) ∧
    (|(pts.getD k z3).2.1| ≤ TOL → ((snapZero pts).getD k z3).2.1 = 0) ∧
    (|(pts.getD k z3).2.2| ≤ np_atol → ((snapZero pts).getD k z3).2.2 = 0) ∧
    (np_atol < |(pts.getD k z3).2.2| → ((snapZero pts).getD k z3).2.2 = (pts.getD k z3).2.2) ∧
    (|(pts.getD k z3).2.2| ≤ TOL → ((snapZero pts).getD k z3).2.2 = 0) := by
  have hz : snapPoint z3 = z3 := by
    norm_num [snapPoint, np_isclose, z3, np_atol, np_rtol]
  have hmap : (snapZero pts).getD k z3 = snapPoint (pts.getD k z3) := by
    conv_lhs => rw [snapZero, ← hz]
    exact List.getD_map pts z3 snapPoint
  set p := pts.getD k z3 with hp
  refine ⟨by simp [snapZero], ?_, ?_, ?_, ?_, ?_, ?_, ?_, ?_, ?_⟩ <;> rw [hmap] <;>
      intro h <;> simp only [snapPoint]
  · rw [if_pos (by rw [np_isclose_zero]; exact h)]
  · rw [if_neg (by rw [np_isclose_zero]; exact not_le.mpr h)]
  · rw [if_pos (by rw [np_isclose_zero]; exact h.trans TOL_le_np_atol)]
  · rw [if_pos (by rw [np_isclose_zero]; exact h)]
  · rw [if_neg (by rw [np_isclose_zero]; exact not_le.mpr h)]
  · rw [if_pos (by rw [np_isclose_zero]; exact h.trans TOL_le_np_atol)]
  · rw [if_pos (by rw [np_isclose_zero]; exact h)]
  · rw [if_neg (by rw [np_isclose_zero]; exact not_le.mpr h)]
  · rw [if_pos (by rw [np_isclose_zero]; exact h.trans TOL_le_np_atol)]

/-- C4 counterexample: the coordinate `1e-9` is farther than `TOL` from 0,
yet the snapping step alters it to exactly 0, refuting the claim that no
coordinate farther than `TOL` from 0 is altered. -/
theorem snapZero_counterexample :
    snapZero [((1 : ℚ) / 10 ^ 9, 1 / 2, 1 / 2)] = [((0 : ℚ), 1 / 2, 1 / 2)] ∧
    TOL < |(1 : ℚ) / 10 ^ 9| ∧ ((1 : ℚ) / 10 ^ 9 ≠ 0) := by
  refine ⟨?_, by rw [abs_of_pos (by norm_num)]; norm_num [TOL], by norm_num⟩
  simp only [snapZero, List.map_cons, List.map_nil, snapPoint]
  norm_num [np_isclose, np_atol, np_rtol]
  constructor <;> rw [abs_of_pos (by norm_num)] <;> norm_num

/-! ## C2: boundary replication -/

/-- C2: `duplicate_lower_boundaries` on the three lower patches returns the
six patches in order lower-x, lower-y, lower-z, upper-x, upper-y, upper-z;
each upper patch's points are the lower patch's points translated by exactly
`L[axis]` on its own axis and 0 on the others, and its triangle connectivity
is identical to the lower patch's. -/
theorem duplicate_lower_boundaries_spec (d : Domain) (b0 b1 b2 : BoundaryPLC) :
    duplicate_lower_boundaries d [b0, b1, b2] =
      [b0, b1, b2,
       ⟨b0.points.map (fun p => (p.1 + d.L.1, p.2.1, p.2.2)), b0.tris⟩,
       ⟨b1.points.map (fun p => (p.1, p.2.1 + d.L.2.1, p.2.2)), b1.tris⟩,
       ⟨b2.points.map (fun p => (p.1, p.2.1, p.2.2 + d.L.2.2)), b2.tris⟩] := by
  simp [duplicate_lower_boundaries, List.enum, List.enumFrom, axisTranslate, addVec]

/-! ## C6: hole assembly -/

/-- C6: `build_hole_list` returns exactly the centers of the hole-flagged
sphere pieces, in input order, and in particular the empty list (never a
null value) when no piece is hole-flagged. -/
theorem build_hole_list_spec (pieces : List SpherePiece) :
    build_hole_list pieces =
      (pieces.filter (fun p => p.is_hole)).map (fun p => p.sphere.x) := by
  have h : pieces.foldr (fun p acc => if p.is_hole then p.sphere.x :: acc else acc) [] =
      (pieces.filter (fun p => p.is_hole)).map (fun p => p.sphere.x) := by
    induction pieces with
    | nil => rfl
    | cons p ps ih => by_cases hp : p.is_hole <;> simp [List.filter_cons, hp, ih]
  simp only [build_hole_list, h]
  split
  · rfl
  · rename_i hlen
    exact (List.length_eq_zero.mp (by omega)).symm

/-! ## C5: facet markers -/

/-- C5: `build_facet_list` on six boundary patches and sphere pieces with
non-negative sphere ids assigns the fixed codes lower-x=1, lower-y=3,
lower-z=5, upper-x=2, upper-y=4, upper-z=6 to the boundary triangles in list
order and `sphere.id + 7` to every sphere piece's triangles; the boundary
marker codes lie in 1..6, the sphere markers are at least 7, and the two
marker sets never intersect. -/
theorem build_facet_list_markers (pieces : List SpherePiece) (b0 b1 b2 b3 b4 b5 : BoundaryPLC)
    (h : ∀ p ∈ pieces, 0 ≤ p.sphere.id) :
    build_facet_list pieces [b0, b1, b2, b3, b4, b5] =
      some (b0.tris ++ b1.tris ++ b2.tris ++ b3.tris ++ b4.tris ++ b5.tris ++
              (pieces.map SpherePiece.tris).flatten,
            (List.replicate b0.tris.length (1 : Int) ++ List.replicate b1.tris.length 3 ++
             List.replicate b2.tris.length 5 ++ List.replicate b3.tris.length 2 ++
             List.replicate b4.tris.length 4 ++ List.replicate b5.tris.length 6) ++
            (pieces.map (fun p => List.replicate p.tris.length (p.sphere.id + 7))).flatten) ∧
    (∀ x ∈ List.replicate b0.tris.length (1 : Int) ++ List.replicate b1.tris.length 3 ++
             List.replicate b2.tris.length 5 ++ List.replicate b3.tris.length 2 ++
             List.replicate b4.tris.length 4 ++ List.replicate b5.tris.length 6,
        1 ≤ x ∧ x ≤ 6) ∧
    (∀ y ∈ (pieces.map (fun p => List.replicate p.tris.length (p.sphere.id + 7))).flatten,
        7 ≤ y) ∧
    (∀ x ∈ List.replicate b0.tris.length (1 : Int) ++ List.replicate b1.tris.length 3 ++
             List.replicate b2.tris.length 5 ++ List.replicate b3.tris.length 2 ++
             List.replicate b4.tris.length 4 ++ List.replicate b5.tris.length 6,
       ∀ y ∈ (pieces.map (fun p => List.replicate p.tris.length (p.sphere.id + 7))).flatten,
        x ≠ y) := by
  have hbm : ∀ x ∈ List.replicate b0.tris.length (1 : Int) ++ List.replicate b1.tris.length 3 ++
      List.replicate b2.tris.length 5 ++ List.replicate b3.tris.length 2 ++
      List.replicate b4.tris.length 4 ++ List.replicate b5.tris.length 6, 1 ≤ x ∧ x ≤ 6 := by
    intro x hx
    simp only [List.mem_append, List.mem_replicate] at hx
    rcases hx with ((((⟨-, rfl⟩ | ⟨-, rfl⟩) | ⟨-, rfl⟩) | ⟨-, rfl⟩) | ⟨-, rfl⟩) | ⟨-, rfl⟩ <;>
      norm_num
  have hsm : ∀ y ∈ (pieces.map (fun p => List.replicate p.tris.length (p.sphere.id + 7))).flatten,
      7 ≤ y := by
    intro y hy
    simp only [List.mem_flatten, List.mem_map] at hy
    obtain ⟨l, ⟨p, hp, rfl⟩, hyl⟩ := hy
    have := List.eq_of_mem_replicate hyl
    subst this
    have := h p hp
    omega
  refine ⟨?_, hbm, hsm, fun x hx y hy => ?_⟩
  · simp [build_facet_list, List.append_assoc]
  · have h1 := hbm x hx
    have h2 := hsm y hy
    omega

/-- C5 witness: the marker assignment and disjointness at one sphere piece of
id 2 and six one-triangle boundary patches. -/
theorem build_facet_list_markers_witness :
    build_facet_list [⟨[], [(0, 1, 2)], ⟨2, (0, 0, 0)⟩, false⟩]
        [⟨[], [(0, 1, 2)]⟩, ⟨[], [(3, 4, 5)]⟩, ⟨[], [(6, 7, 8)]⟩,
         ⟨[], [(0, 1, 2)]⟩, ⟨[], [(3, 4, 5)]⟩, ⟨[], [(6, 7, 8)]⟩] =
      some ([(0, 1, 2), (3, 4, 5), (6, 7, 8), (0, 1, 2), (3, 4, 5), (6, 7, 8), (0, 1, 2)],
            [(1 : Int), 3, 5, 2, 4, 6, 9]) ∧
    ∀ x ∈ ([1, 3, 5, 2, 4, 6] : List Int), ∀ y ∈ ([9] : List Int), x ≠ y := by
  have h := build_facet_list_markers [⟨[], [(0, 1, 2)], ⟨2, (0, 0, 0)⟩, false⟩]
    ⟨[], [(0, 1, 2)]⟩ ⟨[], [(3, 4, 5)]⟩ ⟨[], [(6, 7, 8)]⟩
    ⟨[], [(0, 1, 2)]⟩ ⟨[], [(3, 4, 5)]⟩ ⟨[], [(6, 7, 8)]⟩ (by decide)
  refine ⟨?_, ?_⟩
  · rw [h.1]; decide
  · intro x hx y hy
    exact h.2.2.2 x hx y hy

/-! ## C7: Gmsh format writer -/

/-- C7 (amended): `write_msh` emits the exact header tokens
`$MeshFormat / 2.2 0 8 / $EndMeshFormat`, one node line per point with
1-based id and the three coordinates, and one element line per
(face, marker) pair with 1-based element id, element type code 2, two tags
of which the FIRST is the boundary marker with every marker at most 0
rewritten to -1 and the SECOND is 0, and 1-based node ids. -/
theorem write_msh_spec (mesh : TetMesh) :
    (write_msh mesh).take 3 =
      [.raw ("$MeshFormat"), .raw ("2.2 0 8"), .raw ("$EndMeshFormat")] ∧
    (write_msh mesh).filterMap mshNodeOf =
      mesh.points.enum.map (fun e => (e.1 + 1, e.2.1, e.2.2.1, e.2.2.2)) ∧
    (write_msh mesh).filterMap mshElemOf =
      (mesh.faces.zip mesh.face_markers).enum.map (fun e =>
        ⟨e.1 + 1, 2, 2, if 0 < e.2.2 then e.2.2 else -1, 0,
         e.2.1.1 + 1, e.2.1.2.1 + 1, e.2.1.2.2 + 1⟩) := by
  have hsome : ∀ {α β : Type} (f : α → β) (l : List α),
      l.filterMap (fun a => some (f a)) = l.map f := by
    intro α β f l
    induction l with
    | nil => rfl
    | cons a t ih => simp [List.filterMap_cons, ih]
  have hnone : ∀ {α β : Type} (l : List α),
      l.filterMap (fun _ => (none : Option β)) = [] := by
    intro α β l
    induction l with
    | nil => rfl
    | cons a t ih => simp [List.filterMap_cons, ih]
  refine ⟨rfl, ?_, ?_⟩
  · simp only [write_msh, List.filterMap_append, List.filterMap_map, Function.comp_def,
      mshNodeOf, mshElemOf, List.filterMap_nil, List.filterMap_cons, hsome, hnone]
    simp
  · simp only [write_msh, List.filterMap_append, List.filterMap_map, Function.comp_def,
      mshNodeOf, mshElemOf, List.filterMap_nil, List.filterMap_cons, hsome, hnone,
      List.zip_map_left, List.enum_map]
    simp [offsetTri, Prod.map]

/-- C7 counterexample: at a one-triangle mesh with marker 5 the element line
tokens are `1 2 2 5 0 1 2 3`: the marker 5 appears as the first of the two
tags and the second tag is 0, refuting the claim that the second tag is the
boundary marker. -/
theorem write_msh_counterexample :
    (write_msh ⟨[(0, 0, 0), (1, 0, 0), (0, 1, 0)], [(0, 1, 2)], [5], []⟩).filterMap mshElemOf =
      [⟨1, 2, 2, 5, 0, 1, 2, 3⟩] ∧
    (⟨1, 2, 2, 5, 0, 1, 2, 3⟩ : ElemLine).tag2 ≠ 5 ∧
    (⟨1, 2, 2, 5, 0, 1, 2, 3⟩ : ElemLine).tag1 = 5 := by
  refine ⟨by with_unfolding_all decide, by decide, rfl⟩

/-! ## C8: statistics extraction from the TetGen log -/

/-- C8: on any log content with no line containing the text searched for by
`extract_stats`, the extraction loop makes no progress for any amount of
fuel: the `while True` loop re-reads the end of file forever and never
terminates, so the build never completes. -/
theorem extract_stats_diverges (log : List LogLine)
    (h : ∀ l ∈ log, containsSeq l statToken = false) :
    ∀ fuel pos, extract_stats_loop log fuel pos = none := by
  intro fuel
  induction fuel with
  | zero => intro pos; rfl
  | succ n ih =>
    intro pos
    have hline : containsSeq (readlineAt log pos) statToken = false := by
      by_cases hp : pos < log.length
      · refine h _ ?_
        unfold readlineAt
        rw [List.getD_eq_getElem?_getD, List.getElem?_eq_getElem hp]
        exact List.getElem_mem hp
      · unfold readlineAt
        rw [List.getD_eq_default _ _ (by omega)]
        rfl
    unfold extract_stats_loop
    rw [hline]
    simpa using ih (pos + 1)

/-- C8 witness: a two-line log without the marker makes no progress in five
loop iterations. -/
theorem extract_stats_diverges_witness :
    (∀ l ∈ ([("hello").data, ("world").data] : List LogLine),
        containsSeq l statToken = false) ∧
    extract_stats_loop [("hello").data, ("world").data] 5 0 = none :=
  ⟨by decide, extract_stats_diverges _ (by decide) 5 0⟩

/-! ## C10: multiflow cell-face assembly -/

/-- Lookup distributes over association-list append. -/
theorem lookup_append_or {κ α : Type} [BEq κ] (l₁ l₂ : List (κ × α)) (a : κ) :
    (l₁ ++ l₂).lookup a = (l₁.lookup a).or (l₂.lookup a) := by
  induction l₁ with
  | nil => simp [List.lookup]
  | cons kv rest ih =>
    rcases kv with ⟨k, b⟩
    cases hk : (a == k) <;> simp [List.lookup, hk, ih]

/-- Appending to one entry of the dictionary preserves which keys resolve. -/
theorem lookup_mapEntry (m : List (Int × List Nat)) (key : Int) (v : Nat) (k : Int) :
    ((m.map (fun kv => if kv.1 = key then (kv.1, kv.2 ++ [v]) else kv)).lookup k).isSome =
      (m.lookup k).isSome := by
  induction m with
  | nil => rfl
  | cons kv rest ih =>
    rcases kv with ⟨k1, l1⟩
    by_cases h1 : k1 = key
    · subst h1
      simp only [List.map_cons, if_pos rfl]
      cases hk : (k == k1) <;> simp [List.lookup, hk, ih]
    · simp only [List.map_cons, if_neg h1]
      cases hk : (k == k1) <;> simp [List.lookup, hk, ih]

/-- `dictAppend` preserves the presence of any key. -/
theorem dictAppend_lookup_mono (m : List (Int × List Nat)) (key : Int) (v : Nat) (k : Int)
    (h : (m.lookup k).isSome) : ((dictAppend m key v).lookup k).isSome := by
  unfold dictAppend
  split
  · rwa [lookup_mapEntry]
  · rw [lookup_append_or]
    rcases hmk : m.lookup k with - | b
    · rw [hmk] at h; simp at h
    · simp

/-- After `dictAppend m key v` the key `key` is present. -/
theorem dictAppend_lookup_self (m : List (Int × List Nat)) (key : Int) (v : Nat) :
    ((dictAppend m key v).lookup key).isSome := by
  unfold dictAppend
  split
  · rename_i hs
    rwa [lookup_mapEntry]
  · rw [lookup_append_or]
    rcases hmk : m.lookup key with - | b <;> simp [List.lookup]

/-- The enumerated fold of `write_multiflow` records key `-1` as soon as the
accumulator has it or some adjacent-element pair contains `-1`. -/
theorem foldl_dict_isSome (adj : List (Int × Int)) (n : Nat) (acc : List (Int × List Nat))
    (h : ((acc.lookup (-1)).isSome) ∨ ∃ a ∈ adj, a.1 = -1 ∨ a.2 = -1) :
    (((List.enumFrom n adj).foldl
        (fun m e => dictAppend (dictAppend m e.2.1 e.1) e.2.2 e.1) acc).lookup (-1)).isSome := by
  induction adj generalizing n acc with
  | nil =>
    rcases h with h | ⟨a, ha, -⟩
    · simpa using h
    · simp at ha
  | cons a rest ih =>
    simp only [List.enumFrom, List.foldl_cons]
    rcases h with h | ⟨b, hb, hcase⟩
    · exact ih _ _ (Or.inl (dictAppend_lookup_mono _ _ _ _ (dictAppend_lookup_mono _ _ _ _ h)))
    · rcases List.mem_cons.mp hb with rfl | hb
      · rcases hcase with h1 | h2
        · refine ih _ _ (Or.inl ?_)
          rw [← h1]
          exact dictAppend_lookup_mono _ _ _ _ (dictAppend_lookup_self _ _ _)
        · refine ih _ _ (Or.inl ?_)
          rw [← h2]
          exact dictAppend_lookup_self _ _ _
      · exact ih _ _ (Or.inr ⟨b, hb, hcase⟩)

/-- Filtering out a key makes its lookup fail. -/
theorem lookup_filter_ne (m : List (Int × List Nat)) (key : Int) :
    (m.filter (fun kv => kv.1 != key)).lookup key = none := by
  induction m with
  | nil => rfl
  | cons kv rest ih =>
    rcases kv with ⟨k1, l1⟩
    by_cases h1 : k1 = key
    · simp [List.filter_cons, h1, ih]
    · simp only [List.filter_cons]
      rw [if_pos (by simpa using h1)]
      have : (key == k1) = false := by simpa using fun hc => h1 hc.symm
      simp [List.lookup, this, ih]

/-- C10 (amended): the cell-face assembly of `write_multiflow` completes
exactly when some face's adjacent-element pair contains the sentinel `-1`;
in that case the `-1` key is removed from the result.  (On a mesh with no
`-1` sentinel the `cell_faces.pop(-1)` raises `KeyError` instead, see the
counterexample.) -/
theorem multiflow_pop_spec (adj : List (Int × Int))
    (h : ∃ a ∈ adj, a.1 = -1 ∨ a.2 = -1) :
    (multiflow_cell_faces adj).isSome ∧
    ∀ m, multiflow_cell_faces adj = some m → m.lookup (-1) = none := by
  have hs : ((cellFacesDict adj).lookup (-1)).isSome :=
    foldl_dict_isSome adj 0 [] (Or.inr h)
  constructor
  · unfold multiflow_cell_faces dictPop
    rw [if_pos hs]
    rfl
  · intro m hm
    unfold multiflow_cell_faces dictPop at hm
    rw [if_pos hs] at hm
    obtain rfl : (cellFacesDict adj).filter (fun kv => kv.1 != -1) = m :=
      Option.some.inj hm
    exact lookup_filter_ne _ _

/-- C10 witness: with a single face adjacent to the exterior sentinel the
assembly completes and drops the `-1` key. -/
theorem multiflow_pop_spec_witness :
    (multiflow_cell_faces [((-1 : Int), (0 : Int))]).isSome ∧
    ∀ m, multiflow_cell_faces [((-1 : Int), (0 : Int))] = some m → m.lookup (-1) = none :=
  multiflow_pop_spec _ (by decide)

/-! ## Vertex-merge lemmas -/

/-- In-range `getD` agrees with `getElem`. -/
theorem getD_eq_getElem {α : Type} (l : List α) (n : Nat) (d : α) (h : n < l.length) :
    l.getD n d = l[n] := by
  rw [List.getD_eq_getElem?_getD, List.getElem?_eq_getElem h]
  rfl

/-- Membership in the proximity-pair list of the source's `query_pairs`. -/
theorem mem_proximityPairs (bp : List Vec3) (i j : Nat) :
    (i, j) ∈ proximityPairs bp ↔
      i < bp.length ∧ j < bp.length ∧ i < j ∧
        sqDist (bp.getD i z3) (bp.getD j z3) ≤ TOL ^ 2 := by
  simp only [proximityPairs, List.mem_flatMap, List.mem_map, List.mem_filter, List.mem_range,
    Bool.and_eq_true, decide_eq_true_eq]
  constructor
  · rintro ⟨a, ha, b, ⟨hb, hab, hd⟩, heq⟩
    injection heq with h1 h2
    subst h1; subst h2
    exact ⟨ha, hb, hab, hd⟩
  · rintro ⟨hi, hj, hij, hd⟩
    exact ⟨i, hi, j, ⟨hj, hij, hd⟩, rfl⟩

/-- The pair list is sorted by its first components, as after the source's
`sorted(..., key=lambda x: x[0])`. -/
theorem proximityPairs_sorted (bp : List Vec3) :
    (proximityPairs bp).Pairwise (fun a b => a.1 ≤ b.1) := by
  unfold proximityPairs
  have main : ∀ l : List Nat, l.Pairwise (· ≤ ·) →
      (l.flatMap (fun i => ((List.range bp.length).filter
        (fun j => decide (i < j) && decide (sqDist (bp.getD i z3) (bp.getD j z3) ≤ TOL ^ 2))).map
        (fun j => (i, j)))).Pairwise (fun a b => a.1 ≤ b.1) := by
    intro l hl
    induction l with
    | nil => simp
    | cons a t ih =>
      rw [List.flatMap_cons, List.pairwise_append]
      obtain ⟨ha, ht⟩ := List.pairwise_cons.mp hl
      refine ⟨?_, ih ht, ?_⟩
      · refine List.pairwise_of_forall_mem_list ?_
        intro x hx y hy
        simp only [List.mem_map] at hx hy
        obtain ⟨jx, -, rfl⟩ := hx
        obtain ⟨jy, -, rfl⟩ := hy
        exact le_refl a
      · intro x hx y hy
        simp only [List.mem_map] at hx
        obtain ⟨jx, -, rfl⟩ := hx
        simp only [List.mem_flatMap, List.mem_map] at hy
        obtain ⟨i2, hi2, jy, -, rfl⟩ := hy
        exact ha i2 hi2
  exact main _ (List.pairwise_le_range _)

/-- Lookup after the duplicate-collection fold: the accumulator wins,
otherwise the first pair of the list whose larger index matches. -/
theorem foldl_dupIns_lookup (l : List (Nat × Nat)) (acc : List (Nat × Nat)) (j : Nat) :
    (l.foldl dupIns acc).lookup j =
      (acc.lookup j).or ((l.find? (fun kv => kv.2 == j)).map Prod.fst) := by
  induction l generalizing acc with
  | nil => simp
  | cons kv rest ih =>
    rcases kv with ⟨k, v⟩
    rw [List.foldl_cons, ih]
    unfold dupIns
    by_cases hv : v = j
    · subst hv
      rw [List.find?_cons]
      simp only [beq_self_eq_true]
      split
      · rename_i hs
        obtain ⟨b, hb⟩ := Option.isSome_iff_exists.mp hs
        rw [hb]
        rfl
      · rename_i hs
        rw [lookup_append_or, Option.not_isSome_iff_eq_none.mp hs]
        simp [List.lookup]
    · rw [List.find?_cons]
      have hne : (((k, v).2 == j)) = false := by simpa using hv
      simp only [hne]
      split
      · rfl
      · rw [lookup_append_or]
        have h2 : ([(v, k)].lookup j) = none := by
          have : (j == v) = false := by simpa using fun hc => hv hc.symm
          simp [List.lookup, this]
        rw [h2]
        simp

/-- The `dup` dictionary maps `j` to the first (hence smallest) lower index
paired with it. -/
theorem dupMap_lookup (bp : List Vec3) (j : Nat) :
    (dupMap bp).lookup j =
      ((proximityPairs bp).find? (fun kv => kv.2 == j)).map Prod.fst := by
  unfold dupMap
  rw [foldl_dupIns_lookup]
  rfl

/-- Every larger index of a proximity pair is recorded in `dup` (and hence
masked out). -/
theorem pair_removed (bp : List Vec3) (i j : Nat) (h : (i, j) ∈ proximityPairs bp) :
    ((dupMap bp).lookup j).isSome := by
  rw [dupMap_lookup]
  have hf : ((proximityPairs bp).find? (fun kv => kv.2 == j)).isSome :=
    List.find?_isSome.mpr ⟨(i, j), h, by simp⟩
  simpa using hf

/-- Membership in the kept-index list. -/
theorem mem_keptIdx (bp : List Vec3) (a : Nat) :
    a ∈ keptIdx bp ↔ a < bp.length ∧ (dupMap bp).lookup a = none := by
  simp [keptIdx, List.mem_filter, List.mem_range, Option.isNone_iff_eq_none]

/-- Two kept positions are farther apart than `TOL`. -/
theorem kept_far (bp : List Vec3) (a b : Nat) (ha : a ∈ keptIdx bp) (hb : b ∈ keptIdx bp)
    (hab : a < b) : ¬ (sqDist (bp.getD a z3) (bp.getD b z3) ≤ TOL ^ 2) := by
  intro hd
  have hpair : (a, b) ∈ proximityPairs bp :=
    (mem_proximityPairs bp a b).mpr
      ⟨((mem_keptIdx bp a).mp ha).1, ((mem_keptIdx bp b).mp hb).1, hab, hd⟩
  have h1 := pair_removed bp a b hpair
  rw [((mem_keptIdx bp b).mp hb).2] at h1
  simp at h1

/-- The kept indices are strictly increasing. -/
theorem keptIdx_sorted (bp : List Vec3) : (keptIdx bp).Pairwise (· < ·) :=
  (List.pairwise_lt_range _).sublist (List.filter_sublist _)

/-- A successful rank is below the list length. -/
theorem rankOf_lt_length (l : List Nat) (v n : Nat) (h : rankOf l v = some n) :
    n < l.length := by
  induction l generalizing n with
  | nil => cases h
  | cons w ws ih =>
    unfold rankOf at h
    split at h
    · cases h
      simp
    · rcases hm : rankOf ws v with - | m
      · rw [hm] at h; cases h
      · rw [hm] at h
        simp only [Option.map_some'] at h
        cases h
        have hlt := ih m hm
        simp only [List.length_cons]
        omega

/-- Rank within an arithmetic range. -/
theorem rankOf_range' (len s v : Nat) :
    rankOf (List.range' s len) v =
      if s ≤ v ∧ v < s + len then some (v - s) else none := by
  induction len generalizing s with
  | zero =>
    rw [if_neg (by omega)]
    rfl
  | succ len ih =>
    rw [List.range'_succ, show rankOf (s :: List.range' (s + 1) len) v =
      if s = v then some 0 else (rankOf (List.range' (s + 1) len) v).map (· + 1) from rfl]
    by_cases hs : s = v
    · subst hs
      rw [if_pos rfl, if_pos (by omega), Nat.sub_self]
    · rw [if_neg hs, ih (s + 1)]
      by_cases hc : s + 1 ≤ v ∧ v < s + 1 + len
      · rw [if_pos hc, if_pos (by omega)]
        simp only [Option.map_some']
        congr 1
        omega
      · rw [if_neg hc, if_neg (by omega)]
        rfl

/-- Rank within `range n` is the identity below `n`. -/
theorem rankOf_range (n v : Nat) (h : v < n) : rankOf (List.range n) v = some v := by
  rw [List.range_eq_range', rankOf_range', if_pos (by omega), Nat.sub_zero]

/-- Every entry of the successful `reindex` update comes from a `dup` entry
whose value reindexes. -/
theorem reindexUpdAux_mem (f : Nat → Option Nat) (l out : List (Nat × Nat))
    (h : reindexUpdAux f l = some out) :
    ∀ kv ∈ out, ∃ src ∈ l, src.1 = kv.1 ∧ f src.2 = some kv.2 := by
  induction l generalizing out with
  | nil =>
    cases h
    intro kv hkv
    cases hkv
  | cons x rest ih =>
    unfold reindexUpdAux at h
    rcases hx : f x.2 with - | n
    · rw [hx] at h; cases h
    · rw [hx] at h
      rcases hr : reindexUpdAux f rest with - | out2
      · rw [hr] at h; cases h
      · rw [hr] at h
        simp only [Option.map_some'] at h
        cases h
        intro kv hkv
        rcases List.mem_cons.mp hkv with rfl | hkv
        · exact ⟨x, List.mem_cons_self _ _, rfl, hx⟩
        · obtain ⟨src, hsrc, h1, h2⟩ := ih out2 hr kv hkv
          exact ⟨src, List.mem_cons_of_mem _ hsrc, h1, h2⟩

/-- Lookup success yields membership. -/
theorem lookup_mem {κ α : Type} [BEq κ] [LawfulBEq κ] (l : List (κ × α)) (a : κ) (b : α)
    (h : l.lookup a = some b) : (a, b) ∈ l := by
  induction l with
  | nil => cases h
  | cons kv rest ih =>
    rcases kv with ⟨k, v⟩
    unfold List.lookup at h
    cases hk : (a == k)
    · rw [hk] at h
      exact List.mem_cons_of_mem _ (ih h)
    · rw [hk] at h
      cases h
      have : a = k := eq_of_beq hk
      subst this
      exact List.mem_cons_self _ _

/-- The full `reindex` lookup lands inside the compacted array. -/
theorem reindexFun_lt (bp : List Vec3) (upd : List (Nat × Nat)) (v n : Nat)
    (hupd : reindexUpd bp = some upd) (h : reindexFun bp upd v = some n) :
    n < (keptIdx bp).length := by
  unfold reindexFun at h
  rcases h0 : reindex0 bp v with - | m
  · rw [h0] at h
    have hmem := lookup_mem upd v n h
    obtain ⟨src, -, -, hsrc⟩ := reindexUpdAux_mem (reindex0 bp) (dupMap bp) upd hupd (v, n) hmem
    exact rankOf_lt_length _ _ _ hsrc
  · rw [h0] at h
    cases h
    exact rankOf_lt_length _ _ _ h0

/-- Boundary-adjacent indices point into the sphere-piece point array. -/
theorem bppIdx_lt (d : Domain) (pp : List Vec3) (m : Nat) (h : m ∈ bppIdx d pp) :
    m < pp.length := by
  simp only [bppIdx, List.mem_filter, List.mem_range] at h
  exact h.1

/-- The `remap` lookup lands inside the final global point array. -/
theorem remapFun_lt (bidx : List Nat) (ppLen compLen n m : Nat)
    (hvals : ∀ x ∈ bidx, x < ppLen)
    (h : remapFun bidx ppLen compLen n = some m) :
    m < ppLen + (compLen - bidx.length) := by
  unfold remapFun at h
  split at h
  · have hm : m ∈ bidx := List.get?_mem h
    have := hvals m hm
    omega
  · split at h
    · rename_i h1 h2
      cases h
      omega
    · cases h

/-- A remapped triangle is componentwise bounded. -/
theorem mapTri_bound (f : Nat → Option Nat) (N : Nat)
    (hf : ∀ v m, f v = some m → m < N) (t t2 : Tri) (h : mapTri f t = some t2) :
    triBound t2 N := by
  unfold mapTri at h
  split at h
  · rename_i a b c h1 h2 h3
    cases h
    exact ⟨hf _ _ h1, hf _ _ h2, hf _ _ h3⟩
  · cases h

/-- All triangles of a successfully remapped list are bounded. -/
theorem mapTris_bound (f : Nat → Option Nat) (N : Nat)
    (hf : ∀ v m, f v = some m → m < N) (l l2 : List Tri) (h : mapTris f l = some l2) :
    ∀ t ∈ l2, triBound t N := by
  induction l generalizing l2 with
  | nil =>
    cases h
    intro t ht
    cases ht
  | cons t0 rest ih =>
    unfold mapTris at h
    rcases h1 : mapTri f t0 with - | t2
    · rw [h1] at h; cases h
    · rw [h1] at h
      rcases h2 : mapTris f rest with - | l3
      · rw [h2] at h; cases h
      · rw [h2] at h
        simp only [Option.map_some'] at h
        cases h
        intro t ht
        rcases List.mem_cons.mp ht with rfl | ht
        · exact mapTri_bound f N hf t0 t h1
        · exact ih l3 h2 t ht

/-- All triangles of all successfully remapped lists are bounded. -/
theorem mapTrisLists_bound (f : Nat → Option Nat) (N : Nat)
    (hf : ∀ v m, f v = some m → m < N) (l l2 : List (List Tri))
    (h : mapTrisLists f l = some l2) :
    ∀ ts ∈ l2, ∀ t ∈ ts, triBound t N := by
  induction l generalizing l2 with
  | nil =>
    cases h
    intro ts hts
    cases hts
  | cons ts0 rest ih =>
    unfold mapTrisLists at h
    rcases h1 : mapTris f ts0 with - | ts2
    · rw [h1] at h; cases h
    · rw [h1] at h
      rcases h2 : mapTrisLists f rest with - | l3
      · rw [h2] at h; cases h
      · rw [h2] at h
        simp only [Option.map_some'] at h
        cases h
        intro ts hts
        rcases List.mem_cons.mp hts with rfl | hts
        · exact mapTris_bound f N hf ts0 ts h1
        · exact ih l3 h2 ts hts

/-- Offset sphere-piece triangles stay inside the concatenated piece-point
array. -/
theorem offsetPieceTris_bound (pieces : List SpherePiece) (c : Nat)
    (hp : ∀ p ∈ pieces, ∀ t ∈ p.tris, triBound t p.points.length) :
    ∀ ts ∈ offsetPieceTris c pieces, ∀ t ∈ ts,
      triBound t (c + (piecePointsOf pieces).length) := by
  induction pieces generalizing c with
  | nil =>
    intro ts hts
    cases hts
  | cons p ps ih =>
    intro ts hts t ht
    have hlen : (piecePointsOf (p :: ps)).length =
        p.points.length + (piecePointsOf ps).length := by
      simp [piecePointsOf]
    rcases List.mem_cons.mp hts with rfl | hts
    · obtain ⟨t0, ht0, rfl⟩ := List.mem_map.mp ht
      have hb := hp p (List.mem_cons_self _ _) t0 ht0
      refine ⟨?_, ?_, ?_⟩ <;> simp only [offsetTri] <;> omega
    · have hb := ih (c + p.points.length) (fun q hq => hp q (List.mem_cons_of_mem _ hq)) ts hts t ht
      obtain ⟨hb1, hb2, hb3⟩ := hb
      refine ⟨by omega, by omega, by omega⟩

/-- `getD` past the first list of an append. -/
theorem getD_append_right {α : Type} (l₁ l₂ : List α) (n : Nat) (d : α) (h : l₁.length ≤ n) :
    (l₁ ++ l₂).getD n d = l₂.getD (n - l₁.length) d := by
  induction l₁ generalizing n with
  | nil => simp
  | cons a t ih =>
    cases n with
    | zero => simp at h
    | succ m =>
      rw [List.cons_append, List.getD_cons_succ, ih m (by simpa using h)]
      congr 1
      simp only [List.length_cons]
      omega

/-- `getD` into a dropped list. -/
theorem getD_drop {α : Type} (l : List α) (n m : Nat) (d : α) :
    (l.drop n).getD m d = l.getD (n + m) d := by
  induction l generalizing n with
  | nil => simp
  | cons a t ih =>
    cases n with
    | zero => simp
    | succ k =>
      rw [List.drop_succ_cons, ih k, show k + 1 + m = k + m + 1 from by omega,
        List.getD_cons_succ]

/-- `getD` through a map, for in-range indices. -/
theorem getD_map_lt {α β : Type} (l : List α) (f : α → β) (n : Nat) (d : α) (d2 : β)
    (h : n < l.length) : (l.map f).getD n d2 = f (l.getD n d) := by
  induction l generalizing n with
  | nil => simp at h
  | cons a t ih =>
    cases n with
    | zero => rfl
    | succ m =>
      rw [List.map_cons, List.getD_cons_succ, List.getD_cons_succ]
      exact ih m (by simpa using h)

/-- In-range `getD` values are members. -/
theorem getD_mem {α : Type} (l : List α) (n : Nat) (d : α) (h : n < l.length) :
    l.getD n d ∈ l := by
  rw [getD_eq_getElem _ _ _ h]
  exact List.getElem_mem h

/-- Strictly sorted lists have strictly increasing `getD` values. -/
theorem pairwise_lt_getD (l : List Nat) (hl : l.Pairwise (· < ·)) (i j d : Nat)
    (hij : i < j) (hj : j < l.length) : l.getD i d < l.getD j d := by
  rw [getD_eq_getElem _ _ _ (lt_trans hij hj), getD_eq_getElem _ _ _ hj]
  exact List.pairwise_iff_getElem.mp hl i j (lt_trans hij hj) hj hij

/-- C1 (amended): when the vertex merge succeeds and every sphere-piece
triangle is valid for its own point list, the deduplicated boundary section
of the global point array (all entries at positions at or past
`len(piece_points)`) contains no two entries within `TOL` of each other, and
every triangle of every sphere piece and every boundary patch references
only indices in `[0, len(global_points))`.  (Sphere-piece points are not
deduplicated at all, so the full array can repeat them, see the
counterexample.) -/
theorem build_point_list_dedup (d : Domain) (pieces : List SpherePiece)
    (bounds : List BoundaryPLC) (r : MergeResult)
    (hr : build_point_list d pieces bounds = some r)
    (hp : ∀ p ∈ pieces, ∀ t ∈ p.tris, triBound t p.points.length) :
    (∀ i j, (piecePointsOf pieces).length ≤ i → i < j → j < r.globalPoints.length →
      ¬ (sqDist (r.globalPoints.getD i z3) (r.globalPoints.getD j z3) ≤ TOL ^ 2)) ∧
    (∀ ts ∈ r.pieceTris, ∀ t ∈ ts, triBound t r.globalPoints.length) ∧
    (∀ ts ∈ r.boundaryTris, ∀ t ∈ ts, triBound t r.globalPoints.length) := by
  unfold build_point_list at hr
  split at hr
  · cases hr
  · rename_i upd hupd
    split at hr
    · cases hr
    · rename_i nb hnb
      obtain rfl := Option.some.inj hr
      dsimp only
      set pp := piecePointsOf pieces with hpp
      set bp := bpArray d pieces bounds with hbp
      set K := (bppIdx d (piecePointsOf pieces)).length with hK
      have hcl : (compacted bp).length = (keptIdx bp).length := by simp [compacted]
      refine ⟨?_, ?_, ?_⟩
      · intro i j hi hij hj
        simp only [List.length_append, List.length_drop] at hj
        have hj' : pp.length ≤ j := le_trans hi hij.le
        rw [getD_append_right pp _ i z3 hi, getD_append_right pp _ j z3 hj',
          getD_drop, getD_drop]
        have hjlen : K + (j - pp.length) < (keptIdx bp).length := by omega
        have hilen : K + (i - pp.length) < (keptIdx bp).length := by omega
        rw [show compacted bp = (keptIdx bp).map (fun v => bp.getD v z3) from rfl,
          getD_map_lt _ _ _ bp.length _ hilen, getD_map_lt _ _ _ bp.length _ hjlen]
        exact kept_far bp _ _ (getD_mem _ _ _ hilen) (getD_mem _ _ _ hjlen)
          (pairwise_lt_getD _ (keptIdx_sorted bp) _ _ _ (by omega) hjlen)
      · intro ts hts t ht
        obtain ⟨h1, h2, h3⟩ := offsetPieceTris_bound pieces 0 hp ts hts t ht
        rw [← hpp] at h1 h2 h3
        simp only [List.length_append]
        exact ⟨by omega, by omega, by omega⟩
      · intro ts hts t ht
        refine mapTrisLists_bound _ _ ?_ _ _ hnb ts hts t ht
        intro v m hvm
        unfold lookupGlobal at hvm
        rcases hrf : reindexFun bp upd v with - | n
        · rw [hrf] at hvm; cases hvm
        · rw [hrf] at hvm
          simp only [Option.some_bind] at hvm
          have hn := reindexFun_lt bp upd v n hupd hrf
          have hm := remapFun_lt (bppIdx d (piecePointsOf pieces)) pp.length
            (compacted bp).length n m (fun x hx => bppIdx_lt d (piecePointsOf pieces) x hx) hvm
          simp only [List.length_append, List.length_drop]
          omega

/-- C1 witness: the amended statement applied to one sphere piece touching
the lower-x boundary patch at the origin. -/
theorem build_point_list_dedup_witness :
    ¬ (sqDist (([((0 : ℚ), 0, 0), ((1 : ℚ) / 2, 0, 0), ((3 : ℚ) / 4, 0, 0)] : List Vec3).getD 1 z3)
        (([((0 : ℚ), 0, 0), ((1 : ℚ) / 2, 0, 0), ((3 : ℚ) / 4, 0, 0)] : List Vec3).getD 2 z3) ≤
      TOL ^ 2) ∧
    triBound ((0, 1, 2) : Tri)
      ([((0 : ℚ), 0, 0), ((1 : ℚ) / 2, 0, 0), ((3 : ℚ) / 4, 0, 0)] : List Vec3).length := by
  have h := build_point_list_dedup ⟨(1, 1, 1)⟩
    [⟨[((0 : ℚ), 0, 0)], [(0, 0, 0)], ⟨0, (0, 0, 0)⟩, false⟩]
    [⟨[((0 : ℚ), 0, 0), ((1 : ℚ) / 2, 0, 0), ((3 : ℚ) / 4, 0, 0)], [(0, 1, 2)]⟩]
    ⟨[((0 : ℚ), 0, 0), ((1 : ℚ) / 2, 0, 0), ((3 : ℚ) / 4, 0, 0)], [[(0, 0, 0)]], [[(0, 1, 2)]]⟩
    (by with_unfolding_all decide) (by decide)
  exact ⟨h.1 1 2 (by decide) (by decide) (by decide),
    h.2.2 [(0, 1, 2)] (by decide) (0, 1, 2) (by decide)⟩

/-- C1 counterexample: two coincident interior sphere-piece points are both
kept by the merge, so the returned global array has two entries at distance
0, within `TOL` of each other, refuting the universally quantified
invariant. -/
theorem build_point_list_counterexample :
    build_point_list ⟨(1, 1, 1)⟩
        [⟨[((1 : ℚ) / 2, 1 / 2, 1 / 2), ((1 : ℚ) / 2, 1 / 2, 1 / 2)], [], ⟨0, (0, 0, 0)⟩, false⟩]
        [] =
      some ⟨[((1 : ℚ) / 2, 1 / 2, 1 / 2), ((1 : ℚ) / 2, 1 / 2, 1 / 2)], [[]], []⟩ ∧
    sqDist (((1 : ℚ) / 2, 1 / 2, 1 / 2) : Vec3) (((1 : ℚ) / 2, 1 / 2, 1 / 2) : Vec3) ≤ TOL ^ 2 :=
  ⟨by with_unfolding_all decide, by with_unfolding_all decide⟩

/-- The first match of `find?` on a list sorted by first components has the
least first component among matches. -/
theorem find?_fst_min (l : List (Nat × Nat)) (j : Nat) (kv : Nat × Nat)
    (hsort : l.Pairwise (fun a b => a.1 ≤ b.1))
    (hf : l.find? (fun e => e.2 == j) = some kv) :
    ∀ x, (x, j) ∈ l → kv.1 ≤ x := by
  induction l with
  | nil => cases hf
  | cons a t ih =>
    rw [List.find?_cons] at hf
    obtain ⟨ha, ht⟩ := List.pairwise_cons.mp hsort
    cases hpa : (a.2 == j)
    · rw [hpa] at hf
      intro x hx
      rcases List.mem_cons.mp hx with heq | hx
      · exfalso
        rw [← heq] at hpa
        simp at hpa
      · exact ih ht hf x hx
    · rw [hpa] at hf
      obtain rfl := Option.some.inj hf
      intro x hx
      rcases List.mem_cons.mp hx with heq | hx
      · exact le_of_eq (by rw [← heq])
      · exact ha _ hx

/-- C3 (amended): for every duplicate pair found by the proximity query, the
higher-indexed point is removed and mapped by `dup` to the LEAST index
directly paired with it (which is strictly lower); a chain whose
intermediate points are themselves removed makes the reindex update fail
(`KeyError`) instead of collapsing the chain onto its minimum, see the
counterexample. -/
theorem dupMap_spec (bp : List Vec3) (i j : Nat) (h : (i, j) ∈ proximityPairs bp) :
    ∃ k, (dupMap bp).lookup j = some k ∧ k < j ∧ (k, j) ∈ proximityPairs bp ∧
      ∀ x, (x, j) ∈ proximityPairs bp → k ≤ x := by
  rw [dupMap_lookup]
  rcases hf : (proximityPairs bp).find? (fun kv => kv.2 == j) with - | kv
  · exfalso
    have hs := (@List.find?_isSome _ (proximityPairs bp) (fun kv => kv.2 == j)).mpr
      ⟨(i, j), h, beq_self_eq_true j⟩
    rw [hf] at hs
    simp at hs
  · rw [hf]
    have hp1 := List.find?_some hf
    have hmem : kv ∈ proximityPairs bp := List.mem_of_find?_eq_some hf
    have hj2 : kv.2 = j := by simpa using hp1
    have hmem' : (kv.1, j) ∈ proximityPairs bp := by
      rw [← hj2]
      exact hmem
    have hchar := (mem_proximityPairs bp kv.1 j).mp hmem'
    refine ⟨kv.1, by simp, hchar.2.2.1, hmem', ?_⟩
    intro x hx
    exact find?_fst_min (proximityPairs bp) j kv (proximityPairs_sorted bp) hf x hx

/-- C3 witness: the pair-level amended statement at two coincident points. -/
theorem dupMap_spec_witness :
    ∃ k, (dupMap [((0 : ℚ), 0, 0), ((0 : ℚ), 0, 0)]).lookup 1 = some k ∧ k < 1 ∧
      (k, 1) ∈ proximityPairs [((0 : ℚ), 0, 0), ((0 : ℚ), 0, 0)] ∧
      ∀ x, (x, 1) ∈ proximityPairs [((0 : ℚ), 0, 0), ((0 : ℚ), 0, 0)] → k ≤ x :=
  dupMap_spec _ 0 1 (by with_unfolding_all decide)

/-- C3 counterexample: an open chain of three collinear points spaced `TOL`
apart (ends `2*TOL` apart, hence not a pair).  Both links are proximity
pairs, yet the merge raises a `KeyError` (`none`) while composing the
reindex update, because point 1 is removed and point 2 maps to it: the
chain does not collapse onto its minimum original index. -/
theorem build_point_list_chain_counterexample :
    sqDist ((0 : ℚ), 0, 0) ((0 : ℚ), 0, TOL) ≤ TOL ^ 2 ∧
    sqDist ((0 : ℚ), 0, TOL) ((0 : ℚ), 0, 2 * TOL) ≤ TOL ^ 2 ∧
    build_point_list ⟨(1, 1, 1)⟩ []
      [⟨[(0, 0, 0), (0, 0, TOL), (0, 0, 2 * TOL)], []⟩] = none :=
  ⟨by with_unfolding_all decide, by with_unfolding_all decide, by with_unfolding_all decide⟩

/-- `mapTris` is the identity when the index map is the identity on valid
indices. -/
theorem mapTris_id (f : Nat → Option Nat) (N : Nat) (hf : ∀ v, v < N → f v = some v)
    (l : List Tri) (hl : ∀ t ∈ l, triBound t N) : mapTris f l = some l := by
  induction l with
  | nil => rfl
  | cons t rest ih =>
    obtain ⟨h1, h2, h3⟩ := hl t (List.mem_cons_self _ _)
    unfold mapTris mapTri
    rw [hf _ h1, hf _ h2, hf _ h3, ih (fun x hx => hl x (List.mem_cons_of_mem _ hx))]
    rfl

/-- C9: rerunning the vertex merge on its own duplicate-free output,
presented as a single boundary source, returns the identical point array and
reindexes the triangles by the identity map. -/
theorem build_point_list_idempotent (d : Domain) (pts : List Vec3) (ts : List Tri)
    (hsep : ∀ j, j < pts.length → ∀ i, i < j →
      ¬ (sqDist (pts.getD i z3) (pts.getD j z3) ≤ TOL ^ 2))
    (hts : ∀ t ∈ ts, triBound t pts.length) :
    build_point_list d [] [⟨pts, ts⟩] = some ⟨pts, [], [ts]⟩ := by
  have hbp : bpArray d [] [⟨pts, ts⟩] = pts := by
    simp [bpArray, bppIdx, piecePointsOf]
  have hpairs : proximityPairs (bpArray d [] [⟨pts, ts⟩]) = [] := by
    rw [hbp, List.eq_nil_iff_forall_not_mem]
    rintro ⟨i, j⟩ hmem
    obtain ⟨hi, hj, hij, hd⟩ := (mem_proximityPairs pts i j).mp hmem
    exact hsep j hj i hij hd
  have hdup : dupMap (bpArray d [] [⟨pts, ts⟩]) = [] := by
    unfold dupMap
    rw [hpairs]
    rfl
  have hkept : keptIdx (bpArray d [] [⟨pts, ts⟩]) = List.range pts.length := by
    unfold keptIdx
    rw [hdup, hbp]
    refine List.filter_eq_self.mpr ?_
    intro a _
    rfl
  have hcomp : compacted (bpArray d [] [⟨pts, ts⟩]) = pts := by
    unfold compacted
    rw [hkept, hbp]
    refine List.ext_getElem (by simp) ?_
    intro i h1 h2
    rw [List.getElem_map, List.getElem_range]
    exact getD_eq_getElem pts i z3 h2
  have hupd : reindexUpd (bpArray d [] [⟨pts, ts⟩]) = some [] := by
    unfold reindexUpd
    rw [hdup]
    rfl
  have hoff : offsetBoundaryTris (bppIdx d (piecePointsOf ([] : List SpherePiece))).length
      [(⟨pts, ts⟩ : BoundaryPLC)] = [ts] := by
    have e1 : offsetBoundaryTris (bppIdx d (piecePointsOf ([] : List SpherePiece))).length
        [(⟨pts, ts⟩ : BoundaryPLC)] = [ts.map (offsetTri 0)] := rfl
    have e2 : ts.map (offsetTri 0) = ts := by
      conv_rhs => rw [← List.map_id ts]
      exact List.map_congr_left fun t _ => rfl
    rw [e1, e2]
  have hlook : ∀ v, v < pts.length →
      lookupGlobal d [] (bpArray d [] [⟨pts, ts⟩]) [] v = some v := by
    intro v hv
    unfold lookupGlobal reindexFun reindex0
    rw [hkept, rankOf_range _ _ hv]
    show (remapFun (bppIdx d (piecePointsOf ([] : List SpherePiece)))
      (piecePointsOf ([] : List SpherePiece)).length
      (compacted (bpArray d [] [⟨pts, ts⟩])).length) v = some v
    unfold remapFun
    rw [if_neg (show ¬ v < (bppIdx d (piecePointsOf ([] : List SpherePiece))).length from
      by simp [bppIdx, piecePointsOf]),
      if_pos (show v < (compacted (bpArray d [] [⟨pts, ts⟩])).length from by rw [hcomp]; exact hv)]
    rfl
  have hmt : mapTris (lookupGlobal d [] (bpArray d [] [⟨pts, ts⟩]) []) ts = some ts :=
    mapTris_id _ pts.length hlook ts hts
  have hml : mapTrisLists (lookupGlobal d [] (bpArray d [] [⟨pts, ts⟩]) []) [ts] = some [ts] := by
    unfold mapTrisLists
    rw [hmt]
    rfl
  unfold build_point_list
  split
  · rename_i hnone
    rw [hupd] at hnone
    cases hnone
  · rename_i upd hupd2
    rw [hupd] at hupd2
    obtain rfl : upd = [] := (Option.some.inj hupd2).symm
    split
    · rename_i hnone2
      rw [hoff, hml] at hnone2
      cases hnone2
    · rename_i nb hnb
      rw [hoff, hml] at hnb
      obtain rfl : nb = [ts] := (Option.some.inj hnb).symm
      rw [show (piecePointsOf ([] : List SpherePiece) ++
        (compacted (bpArray d [] [⟨pts, ts⟩])).drop
          (bppIdx d (piecePointsOf ([] : List SpherePiece))).length) =
        pts from by rw [hcomp]; rfl]
      rfl

/-- C9 witness: the merge is the identity on a concrete duplicate-free
triangle. -/
theorem build_point_list_idempotent_witness :
    build_point_list ⟨(1, 1, 1)⟩ []
        [⟨[((0 : ℚ), 0, 0), ((1 : ℚ), 0, 0), ((0 : ℚ), 1, 0)], [(0, 1, 2)]⟩] =
      some ⟨[((0 : ℚ), 0, 0), ((1 : ℚ), 0, 0), ((0 : ℚ), 1, 0)], [], [[(0, 1, 2)]]⟩ :=
  build_point_list_idempotent _ _ _ (by with_unfolding_all decide) (by decide)

/-- C10 counterexample: a mesh whose single face joins interior cells 0 and 1
(no `-1` sentinel anywhere) makes `cell_faces.pop(-1)` raise `KeyError`
(modelled by `none`): the write raises instead of treating the absent key as
a valid case. -/
theorem multiflow_pop_counterexample :
    multiflow_cell_faces [((0 : Int), (1 : Int))] = none := by decide

end MeshSpherePacking
